import Mathlib

/-!
Verification of the directory-walk + structural-extraction pipeline of the
CoDoc_AI repository (`app/services/codebase_analyzer.py`), shallowly embedded
in Lean 4.

Canonical filesystem paths are modelled as lists of path segments
(`/etc/passwd` is `["etc", "passwd"]`, `/` is `[]`).  Machine integers of the
Python source are modelled as `Nat` (file sizes and counters in the source are
non-negative and never overflow `int`).  Fallible operations are modelled with
`Option` / `Except`.  The external tree-sitter library is modelled as an
oracle parameter; the repository's own traversal of the resulting parse tree
(`_parse_python_code`) is embedded concretely.
-/

namespace CoDoc

/-- A canonical absolute filesystem path, as its list of segments. -/
abbrev Path := List String

/-- `os.path.commonpath [p, q]`: the longest common directory-boundary
prefix of two canonical absolute paths. -/
def commonPrefix : Path → Path → Path
  | a :: as, b :: bs => if a = b then a :: commonPrefix as bs else []
  | _, _ => []

/-- The containment test of `_validate_path_security`:
`os.path.commonpath([real_path, base_dir]) == base_dir`. -/
def isContainedIn (p root : Path) : Bool := commonPrefix p root == root

/-- Error taxonomy of PathGuard (`_validate_path_security` raises
`ValueError` in both cases; the spec names the path-containment failure
`AccessDenied` and the `os.path.realpath` failure `PathResolutionError`). -/
inductive GuardError where
  | resolutionFailed
  | accessDenied
deriving Repr, DecidableEq

/-- The `allowed_base_dirs` list of `_validate_path_security`:
`realpath('/workspace')`, `realpath('/home')`, `realpath('/tmp')`,
`realpath('./')`.  The three fixed roots are not themselves symlinks, so
`realpath` is the identity on them; `realpath('./')` is the process's
canonical current working directory, passed in as `cwd`. -/
def allowedBaseDirs (cwd : Path) : List Path :=
  [["workspace"], ["home"], ["tmp"], cwd]

/-- The `forbidden_dirs` list of `_validate_path_security`. -/
def forbiddenDirs : List Path :=
  [["etc"], ["proc"], ["sys"], ["dev"], ["root"],
   ["usr", "bin"], ["usr", "sbin"], ["sbin"], ["bin"],
   ["var", "log"], ["boot"]]

/-- One iteration of the forbidden-directory loop of
`_validate_path_security`, with the Python exception flow made explicit.
The loop body is
```
try:
    common = os.path.commonpath([real_path, forbidden_dir])
    if common == forbidden_dir:
        raise ValueError("Access denied: Cannot analyze system directory ...")
except ValueError:
    continue
```
The `raise ValueError` sits inside the `try` block whose own
`except ValueError` clause executes `continue`, so the raised access-denied
error is immediately caught and discarded; the iteration can never abort the
loop.  `tryBody` is the `try` body; the surrounding `match` is the `except`
handler.  The iteration's contribution to the loop is the error it lets
escape, which is always `none`. -/
def forbiddenDirIter (realPath forbidden : Path) : Option GuardError :=
  let tryBody : Except GuardError Unit :=
    if commonPrefix realPath forbidden == forbidden then
      Except.error GuardError.accessDenied
    else
      Except.ok ()
  match tryBody with
  | Except.error _ => none
  | Except.ok () => none

/-- Steps 2-4 of `_validate_path_security`, applied to the already
canonicalized `real_path`: the allow-list loop (a path is allowed when
`commonpath([real_path, base_dir]) == base_dir` for some allowed base), the
forbidden-directory loop, and the final return of the real path. -/
def validateRealPath (cwd realPath : Path) : Except GuardError Path :=
  let pathAllowed := (allowedBaseDirs cwd).any fun b => isContainedIn realPath b
  if !pathAllowed then
    Except.error GuardError.accessDenied
  else
    match forbiddenDirs.findSome? (fun f => forbiddenDirIter realPath f) with
    | some e => Except.error e
    | none => Except.ok realPath

/-- `_validate_path_security(path)`: resolve the candidate path to canonical
form via `os.path.realpath` (modelled by the `resolve` oracle; `none` models
a raised `OSError`/`ValueError`), then validate the canonical path. -/
def validatePathSecurity (resolve : Path → Option Path) (cwd : Path)
    (path : Path) : Except GuardError Path :=
  match resolve path with
  | none => Except.error GuardError.resolutionFailed
  | some realPath => validateRealPath cwd realPath

/-- Python `str.lower()` (ASCII case folding, which is all the extension
strings involved need). -/
def strLower (s : String) : String := String.mk (s.data.map Char.toLower)

/-- Python `str.startswith(p)`. -/
def strStartsWith (s p : String) : Bool := p.data.isPrefixOf s.data

/-- Python `str.endswith(p)`. -/
def strEndsWith (s p : String) : Bool :=
  p.data.reverse.isPrefixOf s.data.reverse

/-- The whitespace characters stripped by Python `str.strip()`. -/
def isPyWhitespace (c : Char) : Bool :=
  c = ' ' || c = '\t' || c = '\n' || c = '\r' || c = '\x0b' || c = '\x0c'

/-- Python `str.strip()`. -/
def strStrip (s : String) : String :=
  String.mk
    (((s.data.dropWhile isPyWhitespace).reverse.dropWhile
        isPyWhitespace).reverse)

/-- The `language_map` table of `CodebaseAnalyzer.__init__`. -/
def languageMap : List (String × String) :=
  [(".py", "python"), (".js", "javascript"), (".ts", "typescript"),
   (".jsx", "javascript"), (".tsx", "typescript"), (".java", "java"),
   (".cpp", "cpp"), (".c", "c"), (".h", "c"), (".hpp", "cpp"),
   (".cs", "csharp"), (".go", "go"), (".rb", "ruby"), (".php", "php"),
   (".swift", "swift"), (".kt", "kotlin"), (".rs", "rust"),
   (".scala", "scala"), (".r", "r"), (".m", "objective-c"),
   (".pl", "perl"), (".sh", "bash"), (".yaml", "yaml"), (".yml", "yaml"),
   (".json", "json"), (".xml", "xml"), (".html", "html"), (".css", "css"),
   (".scss", "scss"), (".sass", "sass"), (".sql", "sql"),
   (".md", "markdown"), (".txt", "text")]

/-- The `binary_extensions` set of `CodebaseAnalyzer.__init__`. -/
def binaryExtensions : List String :=
  [".exe", ".dll", ".so", ".dylib", ".a", ".lib",
   ".jpg", ".jpeg", ".png", ".gif", ".bmp", ".ico", ".svg",
   ".mp3", ".mp4", ".avi", ".mov", ".wav", ".pdf",
   ".zip", ".tar", ".gz", ".rar", ".7z",
   ".pyc", ".pyo", ".class", ".o", ".obj"]

/-- `self.language_map.get(file_extension, 'unknown')`. -/
def lookupLanguage (ext : String) : String :=
  (languageMap.lookup ext).getD "unknown"

/-- Helper for `pathSuffix`: the tail of the character list starting at its
last `'.'`, or `none` when no dot occurs. -/
def lastDotTail : List Char → Option (List Char)
  | [] => none
  | '.' :: rest =>
    match lastDotTail rest with
    | some s => some s
    | none => some ('.' :: rest)
  | _ :: rest => lastDotTail rest

/-- `Path(file_path).suffix` of `pathlib` on the final path component: the
substring from the last dot (inclusive), empty when the name has no dot,
when the only dot is the leading character, or when the last dot is the
final character. -/
def pathSuffix (name : String) : String :=
  match name.data with
  | [] => ""
  | _ :: rest =>
    match lastDotTail rest with
    | some tail => if tail = ['.'] then "" else String.mk tail
    | none => ""

/-- `content.count('\n')` on the decoded text. -/
def countNewlines (s : String) : Nat := s.data.count '\n'

/-- A class entry of the dict returned by the structural parsers:
`{'name': ..., 'methods': [...]}`. -/
structure ClassInfo where
  name : String
  methods : List String
deriving Repr, DecidableEq

/-- The dict returned by `_parse_python_code` / `_parse_javascript_code`:
`{'classes': ..., 'functions': ..., 'imports': ...}`. -/
structure CodeInfo where
  classes : List ClassInfo
  functions : List String
  imports : List String
deriving Repr, DecidableEq

/-- The two language parsers seen from `_parse_code_structure`: each maps
file content to a structure dict, or raises (`Except.error`).  The underlying
tree-sitter grammars are an external library, so the composite
`tree-sitter parse + tree traversal` is an oracle parameter here; the
repository's own traversal of a Python parse tree is embedded separately
and verified on its own. -/
structure CodeParsers where
  pyParse : String → Except String CodeInfo
  jsParse : String → Except String CodeInfo

/-- `_parse_code_structure(content, language)`: dispatch on the language,
returning `None` for unsupported languages, and catch any parser exception
(`except Exception: ... return None`). -/
def parseCodeStructure (ps : CodeParsers) (content language : String) :
    Option CodeInfo :=
  let attempt : Except String (Option CodeInfo) :=
    if language == "python" then (ps.pyParse content).map some
    else if language == "javascript" then (ps.jsParse content).map some
    else Except.ok none
  match attempt with
  | Except.ok r => r
  | Except.error _ => none

/-- `_generate_file_summary(code_info, file_path, language)`.
(`language.title()` on the single-word language tags of `language_map`
behaves as capitalization of the first letter.) -/
def generateFileSummary (ci : CodeInfo) (filePath language : String) :
    String :=
  let base := language.capitalize ++ " file: " ++ filePath
  let classesParts :=
    if ci.classes ≠ [] then
      ["Classes (" ++ toString ci.classes.length ++ "): " ++
        String.intercalate ", " (ci.classes.map (·.name))]
    else []
  let functionsParts :=
    if ci.functions ≠ [] then
      ["Functions (" ++ toString ci.functions.length ++ "): " ++
        String.intercalate ", " (ci.functions.take 10) ++
        (if 10 < ci.functions.length then "..." else "")]
    else []
  let importsParts :=
    if ci.imports ≠ [] then
      ["Imports (" ++ toString ci.imports.length ++ "): " ++
        String.intercalate "; " (ci.imports.take 5) ++
        (if 5 < ci.imports.length then "..." else "")]
    else []
  String.intercalate " | "
    ([base] ++ classesParts ++ functionsParts ++ importsParts)

/-- The `FileInfo` pydantic model (one scanned file; the spec's FileRecord). -/
structure FileInfo where
  path : String
  type : String
  size : Nat
  lines : Nat
  language : String
  documentation : Option String
deriving Repr, DecidableEq

/-- What `_analyze_file` observes about a file on disk: whether the direntry
is a symbolic link (`os.path.islink`), `os.stat(...).st_size`, whether
`open(...)` succeeds (`readable`), and the decoded text content
(`errors='ignore'` decoding never fails, so decoding is total here). -/
structure FileData where
  isLink : Bool
  size : Nat
  readable : Bool
  content : String
deriving Repr, DecidableEq

/-- `_analyze_file(file_path, relative_path, include_documentation)`.
`fileName` is the final component of `file_path` (which is what
`Path(file_path).suffix` depends on).  Returns `none` where the source
returns `None` (binary extension, oversized file, unreadable file).  The
enclosing `except Exception: return None` has nothing left to catch in this
model, since every remaining step is total. -/
def analyzeFile (ps : CodeParsers) (fileName relativePath : String)
    (includeDocumentation : Bool) (fd : FileData) : Option FileInfo :=
  let fileExtension := strLower (pathSuffix fileName)
  if binaryExtensions.contains fileExtension then none
  else if 1024 * 1024 < fd.size then none
  else
    let language := lookupLanguage fileExtension
    if !fd.readable then none
    else
      let lines := countNewlines fd.content + 1
      let documentation :=
        if includeDocumentation &&
            (language == "python" || language == "javascript") then
          match parseCodeStructure ps fd.content language with
          | some codeInfo =>
            some (generateFileSummary codeInfo relativePath language)
          | none => none
        else none
      some { path := relativePath, type := fileExtension, size := fd.size,
             lines := lines, language := language,
             documentation := documentation }

mutual

/-- A tree-sitter concrete-syntax-tree node, as consumed by
`_parse_python_code`: its `node.type`, the text of its `name` field child
(`_get_node_text(node.child_by_field_name('name'), content)`; `none` when
there is no such child), its own source text
(`_get_node_text(node, content)`), and its children in order.
(`TSNodeList` is the children list, constructor-for-constructor isomorphic
to `List TSNode`; a mutual inductive is used so that the tree traversal is
plain mutual structural recursion.) -/
inductive TSNode where
  | node (ty : String) (nameText : Option String) (text : String)
      (children : TSNodeList)

/-- The ordered `node.children` list of a tree-sitter node. -/
inductive TSNodeList where
  | nil
  | cons (hd : TSNode) (tl : TSNodeList)

end

/-- Builds a children list from a `List` literal. -/
def TSNodeList.ofList : List TSNode → TSNodeList
  | [] => .nil
  | n :: rest => .cons n (TSNodeList.ofList rest)

def TSNode.ty : TSNode → String
  | .node t _ _ _ => t

def TSNode.nameText : TSNode → Option String
  | .node _ n _ _ => n

def TSNode.text : TSNode → String
  | .node _ _ tx _ => tx

def TSNode.children : TSNode → TSNodeList
  | .node _ _ _ cs => cs

/-- Python truthiness of the optional node text (`if class_name:` /
`if method_name:` / `if func_name:`): `None` and the empty string are
falsy. -/
def pyTruthy : Option String → Bool
  | none => false
  | some s => s ≠ ""

/-- The inner `for stmt in child.children` loop of the method collection of
the `class_definition` branch: append the name of each
`function_definition` statement of a `block` (subject to the
`if method_name:` truthiness check). -/
def pyBlockMethods (acc : List String) : TSNodeList → List String
  | .nil => acc
  | .cons stmt rest =>
    pyBlockMethods
      (if stmt.ty == "function_definition" then
        if pyTruthy stmt.nameText then acc ++ [stmt.nameText.getD ""]
        else acc
       else acc)
      rest

/-- The outer `for child in node.children` loop of the method collection:
for each `block` child of the class node, collect its method names. -/
def pyClassMethodsAux (acc : List String) : TSNodeList → List String
  | .nil => acc
  | .cons child rest =>
    pyClassMethodsAux
      (if child.ty == "block" then pyBlockMethods acc child.children
       else acc)
      rest

/-- The method collection of the `class_definition` branch of
`traverse_node`: over the class node's children, for each `block` child,
the names of its `function_definition` statements (starting from the empty
`methods` list). -/
def pyClassMethods (children : TSNodeList) : List String :=
  pyClassMethodsAux [] children

/-- The guard of the `function_definition` branch of `traverse_node`:
`node.parent and node.parent.type != 'block' or
 (node.parent.parent and node.parent.parent.type != 'class_definition')`,
with Python precedence (`and` binds tighter than `or`) and Python
truthiness of the parent references.  `parentTy` / `pparentTy` are the
types of `node.parent` / `node.parent.parent` (`none` when absent). -/
def pyTopLevelCond (parentTy pparentTy : Option String) : Bool :=
  (match parentTy with
   | none => false
   | some t => t != "block") ||
  (match pparentTy with
   | none => false
   | some t => t != "class_definition")

mutual

/-- `traverse_node(node)` of `_parse_python_code`, with the mutable
`classes` / `functions` / `imports` lists threaded as the accumulator and
the parent chain (needed by the `function_definition` guard) passed as the
types of the parent and grandparent. -/
def pyVisit (node : TSNode) (parentTy pparentTy : Option String)
    (acc : CodeInfo) : CodeInfo :=
  match node, acc with
  | .node ty nameText text children,
    ⟨accClasses, accFunctions, accImports⟩ =>
    let acc1 : CodeInfo :=
      if ty == "class_definition" then
        if pyTruthy nameText then
          ⟨accClasses ++ [⟨nameText.getD "", pyClassMethods children⟩],
           accFunctions, accImports⟩
        else ⟨accClasses, accFunctions, accImports⟩
      else if ty == "function_definition" then
        if pyTopLevelCond parentTy pparentTy then
          if pyTruthy nameText then
            ⟨accClasses, accFunctions ++ [nameText.getD ""], accImports⟩
          else ⟨accClasses, accFunctions, accImports⟩
        else ⟨accClasses, accFunctions, accImports⟩
      else if ty == "import_statement" ||
          ty == "import_from_statement" then
        if text ≠ "" then
          ⟨accClasses, accFunctions, accImports ++ [strStrip text]⟩
        else ⟨accClasses, accFunctions, accImports⟩
      else ⟨accClasses, accFunctions, accImports⟩
    pyVisitList children (some ty) parentTy acc1

/-- The `for child in node.children: traverse_node(child)` recursion. -/
def pyVisitList (nodes : TSNodeList) (parentTy pparentTy : Option String)
    (acc : CodeInfo) : CodeInfo :=
  match nodes with
  | .nil => acc
  | .cons n rest =>
    pyVisitList rest parentTy pparentTy (pyVisit n parentTy pparentTy acc)

end

/-- `_parse_python_code`: traverse the tree from `tree.root_node` (which has
no parent) and assemble the result dict. -/
def parsePythonCode (rootNode : TSNode) : CodeInfo :=
  pyVisit rootNode none none ⟨[], [], []⟩

/-- The fixed directory-name exclusion set of `_analyze_directory` (the
hidden-name check `d.startswith('.')` is separate). -/
def excludedDirNames : List String :=
  ["node_modules", "__pycache__", "venv", "env", "build", "dist",
   "target", ".git", ".svn", ".hg", ".vscode", ".idea"]

mutual

/-- A directory tree on disk, as observed by `os.walk(..., followlinks=False)`
plus the `os.path.islink` / `os.stat` / `open` calls of the analyzer:
`subdirs` are the child directories in listing order (name, whether the
direntry is a symbolic link, subtree), `files` are the child files in
listing order (name, observed file data).  (`DirEntries` is the child
directory list, constructor-for-constructor isomorphic to
`List (String × Bool × FSDir)`; a mutual inductive is used so that the walk
is plain mutual structural recursion.) -/
inductive FSDir where
  | node (subdirs : DirEntries) (files : List (String × FileData))

/-- The ordered child-directory list of a directory: each entry is the
directory's name, whether its direntry is a symbolic link, and its
subtree. -/
inductive DirEntries where
  | nil
  | cons (dirName : String) (isLink : Bool) (sub : FSDir) (rest : DirEntries)

end

/-- Builds a child-directory list from a `List` literal. -/
def DirEntries.ofList : List (String × Bool × FSDir) → DirEntries
  | [] => .nil
  | (dirName, isLink, sub) :: rest =>
    .cons dirName isLink sub (DirEntries.ofList rest)

/-- The static per-request environment of `_analyze_directory`: the
`include_documentation` flag of the request, the `os.path.realpath` oracle
and current working directory used by `_validate_path_security`, and the
tree-sitter parsers. -/
structure ScanEnv where
  includeDocumentation : Bool
  resolve : Path → Option Path
  cwd : Path
  parsers : CodeParsers

/-- Whether `self._validate_path_security(path)` succeeds (the walker treats
any raised `ValueError` as "skip this entry"). -/
def validateOk (env : ScanEnv) (p : Path) : Bool :=
  match validatePathSecurity env.resolve env.cwd p with
  | Except.ok _ => true
  | Except.error _ => false

/-- The mutable loop state of `_analyze_directory`: `files`, `directories`,
`total_lines`, `technologies` (a Python set, modelled as its insertion-order
list without duplicates) and `file_count`. -/
structure WalkState where
  files : List FileInfo
  directories : List String
  totalLines : Nat
  technologies : List String
  fileCount : Nat
deriving Repr, DecidableEq

/-- The break condition `request.max_files and file_count >= request.max_files`:
Python truthiness makes both `None` and `0` disable the ceiling. -/
def maxFilesReached (maxFiles : Option Nat) (fileCount : Nat) : Bool :=
  match maxFiles with
  | none => false
  | some n => n != 0 && n ≤ fileCount

/-- `if file_info.language: technologies.add(file_info.language)` (set
insertion). -/
def addTechnology (techs : List String) (language : String) : List String :=
  if language ≠ "" then
    if techs.contains language then techs else techs ++ [language]
  else techs

/-- The body of the `for filename in filenames` loop of `_analyze_directory`
for one filename (the `max_files` break is handled by the caller): skip
hidden and `.log` files, skip symbolic links, skip files failing
`_validate_path_security`, then run `_analyze_file` and fold any produced
record into the state. -/
def processFile (env : ScanEnv) (rootAbs relDir : Path) (st : WalkState)
    (fileName : String) (fd : FileData) : WalkState :=
  match st with
  | ⟨stFiles, stDirs, stLines, stTechs, stCount⟩ =>
    if strStartsWith fileName "." || strEndsWith fileName ".log" then
      ⟨stFiles, stDirs, stLines, stTechs, stCount⟩
    else if fd.isLink then
      ⟨stFiles, stDirs, stLines, stTechs, stCount⟩
    else if !(validateOk env (rootAbs ++ [fileName])) then
      ⟨stFiles, stDirs, stLines, stTechs, stCount⟩
    else
      let relativePath := String.intercalate "/" (relDir ++ [fileName])
      match analyzeFile env.parsers fileName relativePath
          env.includeDocumentation fd with
      | none => ⟨stFiles, stDirs, stLines, stTechs, stCount⟩
      | some fileInfo =>
        ⟨stFiles ++ [fileInfo], stDirs, stLines + fileInfo.lines,
         addTechnology stTechs fileInfo.language, stCount + 1⟩

/-- The `for filename in filenames` loop, with its leading
`if request.max_files and file_count >= request.max_files: break`. -/
def processFiles (env : ScanEnv) (maxFiles : Option Nat)
    (rootAbs relDir : Path) (st : WalkState) :
    List (String × FileData) → WalkState
  | [] => st
  | (fileName, fd) :: rest =>
    if maxFilesReached maxFiles st.fileCount then st
    else processFiles env maxFiles rootAbs relDir
      (processFile env rootAbs relDir st fileName fd) rest

/-- Whether a child directory survives the `for d in dirs` filter of
`_analyze_directory`: not hidden or in the fixed exclusion set, not a
symbolic link, and passing `_validate_path_security`. -/
def dirPassesFilter (env : ScanEnv) (rootAbs : Path) (dirName : String)
    (isLink : Bool) : Bool :=
  !(strStartsWith dirName "." || excludedDirNames.contains dirName) &&
  !isLink &&
  validateOk env (rootAbs ++ [dirName])

/-- The state effect of the `for d in dirs` filter loop: each directory that
passes the filter has its relative path appended to `directories` (this
happens for the whole `dirs` list before the file loop of the same root). -/
def recordDirs (env : ScanEnv) (rootAbs relDir : Path) :
    WalkState → DirEntries → WalkState
  | st, .nil => st
  | ⟨stFiles, stDirs, stLines, stTechs, stCount⟩,
    .cons dirName isLink _ rest =>
    recordDirs env rootAbs relDir
      (if dirPassesFilter env rootAbs dirName isLink then
        ⟨stFiles, stDirs ++ [String.intercalate "/" (relDir ++ [dirName])],
         stLines, stTechs, stCount⟩
       else ⟨stFiles, stDirs, stLines, stTechs, stCount⟩) rest

mutual

/-- The `for root, dirs, filenames in os.walk(...)` loop of
`_analyze_directory`, restricted to the subtree rooted at `rootAbs`
(absolute path) / `relDir` (path relative to the scan root), in `os.walk`
top-down order: handle the root itself (validate it — on failure
`dirs.clear(); continue` skips the whole subtree; filter and record its
child directories; run the file loop), then descend into the surviving
child directories in order.  The leading `maxFilesReached` test models the
post-file-loop `break` of the outer loop: once the ceiling is reached, no
further root is yielded, so a subtree reached in that state contributes
nothing. -/
def walkDir (env : ScanEnv) (maxFiles : Option Nat) (rootAbs relDir : Path)
    (d : FSDir) (st : WalkState) : WalkState :=
  match d, st with
  | .node subdirs files, ⟨stFiles, stDirs, stLines, stTechs, stCount⟩ =>
    if maxFilesReached maxFiles stCount then
      ⟨stFiles, stDirs, stLines, stTechs, stCount⟩
    else if !(validateOk env rootAbs) then
      ⟨stFiles, stDirs, stLines, stTechs, stCount⟩
    else
      let st1 := recordDirs env rootAbs relDir
        ⟨stFiles, stDirs, stLines, stTechs, stCount⟩ subdirs
      let st2 := processFiles env maxFiles rootAbs relDir st1 files
      walkEntries env maxFiles rootAbs relDir subdirs st2

/-- Descent into the (filtered) child directories: `os.walk` recurses
exactly into the directories kept by `dirs[:] = safe_dirs`, in order. -/
def walkEntries (env : ScanEnv) (maxFiles : Option Nat)
    (rootAbs relDir : Path) (entries : DirEntries)
    (st : WalkState) : WalkState :=
  match entries with
  | .nil => st
  | .cons dirName isLink sub rest =>
    let st' :=
      if dirPassesFilter env rootAbs dirName isLink then
        walkDir env maxFiles (rootAbs ++ [dirName]) (relDir ++ [dirName])
          sub st
      else st
    walkEntries env maxFiles rootAbs relDir rest st'

end

/-- The `ProjectStructure` pydantic model (the spec's ProjectInventory). -/
structure ProjectStructure where
  name : String
  files : List FileInfo
  directories : List String
  total_files : Nat
  total_lines : Nat
deriving Repr, DecidableEq

/-- `_analyze_directory(directory_path, request)`: run the walk from the
scan root with empty state, then assemble the `ProjectStructure` with
`total_files=len(files)` and the accumulated `total_lines`, and the project
name from the basename of the scanned path (placeholder when the basename
is `'.'` or empty). -/
def analyzeDirectory (env : ScanEnv) (maxFiles : Option Nat)
    (directoryPath : Path) (tree : FSDir) : ProjectStructure :=
  let st := walkDir env maxFiles directoryPath [] tree ⟨[], [], 0, [], 0⟩
  let basename := directoryPath.getLastD ""
  let projectName :=
    if basename = "." ∨ basename = "" then "Analyzed Project" else basename
  { name := projectName,
    files := st.files,
    directories := st.directories,
    total_files := st.files.length,
    total_lines := st.totalLines }

/-!  Concrete inputs used by claim theorems and witnesses.  -/

/-- A parser oracle pair that always raises (used where parsing is
irrelevant or must fail). -/
def failingParsers : CodeParsers :=
  ⟨fun _ => Except.error "parse error", fun _ => Except.error "parse error"⟩

/-- A `realpath` oracle for a filesystem without symbolic links: every path
is already canonical. -/
def idResolve : Path → Option Path := fun p => some p

/-- The tree-sitter CST of the Python source
`"import os"` / `"def foo(): pass"` / `"class Bar:  def baz(self): pass"`
(one top-level function, one class with one method, one import), as produced
by the tree-sitter-python grammar: a `module` node whose children are an
`import_statement`, a `function_definition` and a `class_definition`; the
class body `block` contains the method's `function_definition`.  `children`
includes the anonymous token nodes (`def`, `:`, ...) exactly as
`node.children` does in the Python binding. -/
def tsLeaf (ty text : String) : TSNode := .node ty none text .nil

def sampleBazNode : TSNode :=
  .node "function_definition" (some "baz") "def baz(self):\n        pass"
    (TSNodeList.ofList
      [tsLeaf "def" "def",
       tsLeaf "identifier" "baz",
       .node "parameters" none "(self)"
         (TSNodeList.ofList
           [tsLeaf "(" "(", tsLeaf "identifier" "self", tsLeaf ")" ")"]),
       tsLeaf ":" ":",
       .node "block" none "pass"
         (TSNodeList.ofList
           [.node "pass_statement" none "pass"
             (TSNodeList.ofList [tsLeaf "pass" "pass"])])])

def sampleFooNode : TSNode :=
  .node "function_definition" (some "foo") "def foo():\n    pass"
    (TSNodeList.ofList
      [tsLeaf "def" "def",
       tsLeaf "identifier" "foo",
       .node "parameters" none "()"
         (TSNodeList.ofList [tsLeaf "(" "(", tsLeaf ")" ")"]),
       tsLeaf ":" ":",
       .node "block" none "pass"
         (TSNodeList.ofList
           [.node "pass_statement" none "pass"
             (TSNodeList.ofList [tsLeaf "pass" "pass"])])])

def sampleImportNode : TSNode :=
  .node "import_statement" (some "os") "import os"
    (TSNodeList.ofList
      [tsLeaf "import" "import",
       .node "dotted_name" none "os"
         (TSNodeList.ofList [tsLeaf "identifier" "os"])])

def sampleBarNode : TSNode :=
  .node "class_definition" (some "Bar")
    "class Bar:\n    def baz(self):\n        pass"
    (TSNodeList.ofList
      [tsLeaf "class" "class",
       tsLeaf "identifier" "Bar",
       tsLeaf ":" ":",
       .node "block" none "def baz(self):\n        pass"
         (TSNodeList.ofList [sampleBazNode])])

def samplePythonModule : TSNode :=
  .node "module" none
    "import os\n\ndef foo():\n    pass\n\nclass Bar:\n    def baz(self):\n        pass\n"
    (TSNodeList.ofList [sampleImportNode, sampleFooNode, sampleBarNode])

/-- The sum of `lines` over a list of file records (the quantity the
`total_lines` accumulator of `_analyze_directory` is meant to track). -/
def linesSum (files : List FileInfo) : Nat :=
  (files.map FileInfo.lines).sum

/-- The state invariant maintained by the walk of `_analyze_directory`:
`total_lines` is the sum of the recorded files' line counts, `file_count`
is the number of recorded files, and every recorded file has at least one
line and at most the 1 MiB size limit. -/
def walkInv (st : WalkState) : Prop :=
  st.totalLines = linesSum st.files ∧
  st.fileCount = st.files.length ∧
  ∀ fi ∈ st.files, 1 ≤ fi.lines ∧ fi.size ≤ 1024 * 1024

/-- The file records contributed by one iteration of the filenames loop
(`[]` when the file is skipped, one record when `_analyze_file` produces
one); used to state that the loop only appends to `files`. -/
def processFileDelta (env : ScanEnv) (rootAbs relDir : Path)
    (fileName : String) (fd : FileData) : List FileInfo :=
  if strStartsWith fileName "." || strEndsWith fileName ".log" then []
  else if fd.isLink then []
  else if !(validateOk env (rootAbs ++ [fileName])) then []
  else
    match analyzeFile env.parsers fileName
        (String.intercalate "/" (relDir ++ [fileName]))
        env.includeDocumentation fd with
    | none => []
    | some fileInfo => [fileInfo]

mutual

/-- The same directory tree with every symbolic-link entry removed — i.e.
the tree in which every symlink "is absent".  -/
def pruneLinks : FSDir → FSDir
  | .node subdirs files =>
    .node (pruneEntries subdirs) (files.filter fun f => !f.2.isLink)

/-- Removes the symbolic-link child directories (with their subtrees) and
prunes the remaining subtrees. -/
def pruneEntries : DirEntries → DirEntries
  | .nil => .nil
  | .cons dirName isLink sub rest =>
    if isLink then pruneEntries rest
    else .cons dirName isLink (pruneLinks sub) (pruneEntries rest)

end

/-- Modelled from the spec: `lineCount` is "computed as count of
newline-delimited segments of decoded text", with the spec's stipulation
that a file with no content has line count 0; for nonempty text the
newline-delimited segments are one more than the number of newlines. -/
def specNewlineSegments (s : String) : Nat :=
  if s.data = [] then 0 else countNewlines s + 1

/-- The simulation relation used to compare a walk with ceiling `n` against
the unbounded walk: the bounded state's files are the first `n` files of
the unbounded state's, and both states satisfy the walk invariant. -/
def simR (n : Nat) (stL stU : WalkState) : Prop :=
  stL.files = stU.files.take n ∧ walkInv stL ∧ walkInv stU

/-- A scan environment over a symlink-free filesystem rooted in the allowed
`/workspace` tree, with no documentation extraction. -/
def plainEnv : ScanEnv := ⟨false, idResolve, ["workspace"], failingParsers⟩

/-- A two-file tree (one file at the root, one in a subdirectory) used as a
concrete walk input. -/
def twoFileTree : FSDir :=
  .node (DirEntries.ofList
    [("sub", false, .node .nil [("b.txt", ⟨false, 3, true, "x\ny"⟩)])])
    [("a.txt", ⟨false, 5, true, "hello\nworld\n"⟩)]

/-- A one-file tree used as a concrete walk input. -/
def oneFileTree : FSDir :=
  .node .nil [("only.txt", ⟨false, 4, true, "ab\ncd"⟩)]

/-!  Theorems.  -/

theorem forbiddenDirIter_eq_none (realPath forbidden : Path) :
    forbiddenDirIter realPath forbidden = none := by
  unfold forbiddenDirIter
  split <;> rfl

theorem commonPrefix_self_eq (p r : Path) :
    (commonPrefix p r == r) = true ↔ ∃ t, p = r ++ t := by
  rw [beq_iff_eq]
  induction r generalizing p with
  | nil =>
    constructor
    · intro _; exact ⟨p, rfl⟩
    · intro _
      cases p <;> simp [commonPrefix]
  | cons b bs ih =>
    cases p with
    | nil =>
      simp only [commonPrefix]
      constructor
      · intro h; simp at h
      · rintro ⟨t, ht⟩; simp at ht
    | cons a as =>
      by_cases hab : a = b
      · subst hab
        simpa [commonPrefix] using ih as
      · simp only [commonPrefix, if_neg hab]
        constructor
        · intro h; simp at h
        · rintro ⟨t, ht⟩
          have : a = b := by simpa using congrArg (·.head?) ht
          exact absurd this hab


/-- C1 (code evaluation at the failing input): the deny-list check of
`_validate_path_security` is inert, so a deny-listed path that passes the
allow-list is accepted rather than rejected.  Concretely, with the process
current working directory `/` (so `realpath('./')` puts `/` on the
allow-list), the canonical path `/etc/passwd` lies inside the deny-listed
root `/etc` by the function's own containment test, yet validation returns
it successfully: the `raise ValueError("Access denied: Cannot analyze
system directory ...")` in the deny loop is caught by that loop's own
`except ValueError: continue` handler.  The claim (deny wins after the
allow-list passes, yielding `AccessDenied`) is therefore violated by the
code. -/
theorem claim1_deny_check_inert :
    isContainedIn ["etc", "passwd"] ["etc"] = true ∧
    validateRealPath [] ["etc", "passwd"] =
      Except.ok ["etc", "passwd"] :=
  ⟨rfl, rfl⟩

/-- C2: the allow-list containment test of `_validate_path_security` is a
canonical-path directory-boundary comparison, not a string prefix match:
`commonpath([p, r]) == r` holds exactly when `p` equals `r` or lies inside
`r` at a directory boundary (`p = r ++ t`).  In particular the sibling
paths `/home2` and `/home-eve` are not contained in the allow root `/home`,
and with current working directory `/app` the canonical path `/home2` is
rejected with `AccessDenied` (it lies in no allow root) while `/home/eve`
is accepted. -/
theorem claim2_containment_is_segment_comparison :
    (∀ p r : Path, isContainedIn p r = true ↔ ∃ t, p = r ++ t) ∧
    isContainedIn ["home2"] ["home"] = false ∧
    isContainedIn ["home-eve"] ["home"] = false ∧
    validateRealPath ["app"] ["home2"] =
      Except.error GuardError.accessDenied ∧
    validateRealPath ["app"] ["home", "eve"] = Except.ok ["home", "eve"] :=
  ⟨fun p r => commonPrefix_self_eq p r, rfl, rfl, rfl, rfl⟩

set_option maxHeartbeats 1000000 in
/-- C7: structural extraction on the Python source with one top-level
function `foo`, one class `Bar` with single method `baz`, and one import
statement yields `functions == ["foo"]`,
`classes == [{name: "Bar", methods: ["baz"]}]` and `imports` holding exactly
the import statement's text; `foo` is not in `Bar`'s method list and `baz`
is counted only as a method, not also as a top-level function. -/
theorem claim7_structural_extraction_sample :
    parsePythonCode samplePythonModule =
      { classes := [⟨"Bar", ["baz"]⟩],
        functions := ["foo"],
        imports := ["import os"] } := by
  decide

theorem analyzeFile_oversize (ps : CodeParsers)
    (fileName relativePath : String) (includeDocumentation : Bool)
    (fd : FileData) (h : 1024 * 1024 < fd.size) :
    analyzeFile ps fileName relativePath includeDocumentation fd = none := by
  unfold analyzeFile
  simp only []
  split <;> rfl

theorem analyzeFile_some_spec (ps : CodeParsers)
    (fileName relativePath : String) (includeDocumentation : Bool)
    (fd : FileData) (fi : FileInfo)
    (h : analyzeFile ps fileName relativePath includeDocumentation fd =
      some fi) :
    fi.path = relativePath ∧ fi.size = fd.size ∧ fd.size ≤ 1024 * 1024 ∧
    fi.lines = countNewlines fd.content + 1 := by
  unfold analyzeFile at h
  simp only [] at h
  split at h
  · exact absurd h (by simp)
  · split at h
    · exact absurd h (by simp)
    · split at h
      · exact absurd h (by simp)
      · rename_i hsize _
        cases h
        exact ⟨rfl, rfl, Nat.le_of_not_lt hsize, rfl⟩

theorem linesSum_append (a b : List FileInfo) :
    linesSum (a ++ b) = linesSum a + linesSum b := by
  simp [linesSum]

theorem processFile_fields (env : ScanEnv) (rootAbs relDir : Path)
    (st : WalkState) (fileName : String) (fd : FileData) :
    (processFile env rootAbs relDir st fileName fd).files =
      st.files ++ processFileDelta env rootAbs relDir fileName fd ∧
    (processFile env rootAbs relDir st fileName fd).totalLines =
      st.totalLines + linesSum (processFileDelta env rootAbs relDir fileName fd) ∧
    (processFile env rootAbs relDir st fileName fd).fileCount =
      st.fileCount + (processFileDelta env rootAbs relDir fileName fd).length := by
  obtain ⟨stFiles, stDirs, stLines, stTechs, stCount⟩ := st
  simp only [processFile, processFileDelta]
  split
  · simp [linesSum]
  · split
    · simp [linesSum]
    · split
      · simp [linesSum]
      · split
        · simp [linesSum]
        · simp [linesSum]

theorem processFileDelta_spec (env : ScanEnv) (rootAbs relDir : Path)
    (fileName : String) (fd : FileData) :
    ∀ fi ∈ processFileDelta env rootAbs relDir fileName fd,
      fi.lines = countNewlines fd.content + 1 ∧ fi.size ≤ 1024 * 1024 := by
  unfold processFileDelta
  split
  · intro fi hfi; cases hfi
  · split
    · intro fi hfi; cases hfi
    · split
      · intro fi hfi; cases hfi
      · split
        · intro fi hfi; cases hfi
        · rename_i fileInfo heq
          intro fi hfi
          have hfe : fi = fileInfo := by simpa using hfi
          subst hfe
          obtain ⟨-, hsz, hle, hln⟩ := analyzeFile_some_spec _ _ _ _ _ _ heq
          exact ⟨hln, by rw [hsz]; exact hle⟩

theorem processFile_inv (env : ScanEnv) (rootAbs relDir : Path)
    (st : WalkState) (fileName : String) (fd : FileData) (h : walkInv st) :
    walkInv (processFile env rootAbs relDir st fileName fd) := by
  obtain ⟨hf, hl, hc⟩ := processFile_fields env rootAbs relDir st fileName fd
  obtain ⟨h1, h2, h3⟩ := h
  have hd := processFileDelta_spec env rootAbs relDir fileName fd
  refine ⟨?_, ?_, ?_⟩
  · rw [hl, hf, linesSum_append, h1]
  · rw [hc, hf, List.length_append, h2]
  · rw [hf]
    intro fi hfi
    rcases List.mem_append.mp hfi with hm | hm
    · exact h3 fi hm
    · obtain ⟨hln, hsz⟩ := hd fi hm
      exact ⟨by rw [hln]; omega, hsz⟩

theorem processFiles_inv (env : ScanEnv) (maxFiles : Option Nat)
    (rootAbs relDir : Path) :
    ∀ (l : List (String × FileData)) (st : WalkState), walkInv st →
      walkInv (processFiles env maxFiles rootAbs relDir st l)
  | [], _, h => h
  | (fileName, fd) :: rest, st, h => by
    unfold processFiles
    split
    · exact h
    · exact processFiles_inv env maxFiles rootAbs relDir rest _
        (processFile_inv env rootAbs relDir st fileName fd h)

theorem recordDirs_fields (env : ScanEnv) (rootAbs relDir : Path) :
    ∀ (es : DirEntries) (st : WalkState),
      (recordDirs env rootAbs relDir st es).files = st.files ∧
      (recordDirs env rootAbs relDir st es).totalLines = st.totalLines ∧
      (recordDirs env rootAbs relDir st es).fileCount = st.fileCount
  | .nil, st => ⟨rfl, rfl, rfl⟩
  | .cons dirName isLink sub rest, st => by
    obtain ⟨stFiles, stDirs, stLines, stTechs, stCount⟩ := st
    simp only [recordDirs]
    split
    · exact recordDirs_fields env rootAbs relDir rest _
    · exact recordDirs_fields env rootAbs relDir rest _

theorem recordDirs_inv (env : ScanEnv) (rootAbs relDir : Path)
    (es : DirEntries) (st : WalkState) (h : walkInv st) :
    walkInv (recordDirs env rootAbs relDir st es) := by
  obtain ⟨hf, hl, hc⟩ := recordDirs_fields env rootAbs relDir es st
  obtain ⟨h1, h2, h3⟩ := h
  refine ⟨?_, ?_, ?_⟩
  · rw [hl, hf, h1]
  · rw [hc, hf, h2]
  · rw [hf]
    exact h3

mutual

theorem walkDir_inv (env : ScanEnv) (maxFiles : Option Nat) :
    ∀ (d : FSDir) (rootAbs relDir : Path) (st : WalkState), walkInv st →
      walkInv (walkDir env maxFiles rootAbs relDir d st)
  | .node subdirs files, rootAbs, relDir, st, h => by
    obtain ⟨stFiles, stDirs, stLines, stTechs, stCount⟩ := st
    simp only [walkDir]
    split
    · exact h
    · split
      · exact h
      · exact walkEntries_inv env maxFiles subdirs rootAbs relDir _
          (processFiles_inv env maxFiles rootAbs relDir files _
            (recordDirs_inv env rootAbs relDir subdirs _ h))

theorem walkEntries_inv (env : ScanEnv) (maxFiles : Option Nat) :
    ∀ (es : DirEntries) (rootAbs relDir : Path) (st : WalkState),
      walkInv st → walkInv (walkEntries env maxFiles rootAbs relDir es st)
  | .nil, rootAbs, relDir, st, h => by
    simp only [walkEntries]
    exact h
  | .cons dirName isLink sub rest, rootAbs, relDir, st, h => by
    simp only [walkEntries]
    split
    · exact walkEntries_inv env maxFiles rest rootAbs relDir _
        (walkDir_inv env maxFiles sub (rootAbs ++ [dirName])
          (relDir ++ [dirName]) st h)
    · exact walkEntries_inv env maxFiles rest rootAbs relDir st h

end

theorem walkInv_init : walkInv ⟨[], [], 0, [], 0⟩ :=
  ⟨rfl, rfl, fun _ hfi => absurd hfi (List.not_mem_nil _)⟩

theorem length_le_linesSum (files : List FileInfo)
    (h : ∀ fi ∈ files, 1 ≤ fi.lines) : files.length ≤ linesSum files := by
  induction files with
  | nil => simp [linesSum]
  | cons fi rest ih =>
    have h1 := h fi (by simp)
    have h2 := ih fun f hf => h f (by simp [hf])
    simp only [linesSum, List.map_cons, List.sum_cons, List.length_cons]
    simp only [linesSum] at h2
    omega

/-- C3: for every walked tree (and every request configuration), the
resulting project structure satisfies `total_files = len(files)` and
`total_lines = sum of lines over files` exactly: the aggregates are
recomputable from the `files` sequence. -/
theorem claim3_aggregates_consistent (env : ScanEnv) (maxFiles : Option Nat)
    (directoryPath : Path) (tree : FSDir) :
    (analyzeDirectory env maxFiles directoryPath tree).total_files =
      (analyzeDirectory env maxFiles directoryPath tree).files.length ∧
    (analyzeDirectory env maxFiles directoryPath tree).total_lines =
      linesSum (analyzeDirectory env maxFiles directoryPath tree).files := by
  obtain ⟨h1, -, -⟩ :=
    walkDir_inv env maxFiles tree directoryPath [] ⟨[], [], 0, [], 0⟩
      walkInv_init
  exact ⟨rfl, h1⟩

/-- C6: a file larger than 1 MiB is never recorded (regardless of content
or extension), and consequently every record in any inventory has
`size ≤ 1 MiB`. -/
theorem claim6_size_limit :
    (∀ (ps : CodeParsers) (fileName relativePath : String)
        (includeDocumentation : Bool) (fd : FileData),
        1024 * 1024 < fd.size →
        analyzeFile ps fileName relativePath includeDocumentation fd =
          none) ∧
    (∀ (env : ScanEnv) (maxFiles : Option Nat) (directoryPath : Path)
        (tree : FSDir) (fi : FileInfo),
        fi ∈ (analyzeDirectory env maxFiles directoryPath tree).files →
        fi.size ≤ 1024 * 1024) := by
  constructor
  · exact analyzeFile_oversize
  · intro env maxFiles directoryPath tree fi hfi
    obtain ⟨-, -, h3⟩ :=
      walkDir_inv env maxFiles tree directoryPath [] ⟨[], [], 0, [], 0⟩
        walkInv_init
    exact (h3 fi hfi).2

/-- Witness for C6 at concrete inputs: a 1 MiB + 1 byte file produces no
record, and a concrete record of a walked inventory is within the limit. -/
theorem claim6_size_limit_witness :
    analyzeFile failingParsers "big.txt" "big.txt" true
      ⟨false, 1048577, true, ""⟩ = none ∧
    (⟨"a.txt", ".txt", 5, 3, "text", none⟩ : FileInfo).size ≤
      1024 * 1024 :=
  ⟨claim6_size_limit.1 failingParsers "big.txt" "big.txt" true
      ⟨false, 1048577, true, ""⟩ (by decide),
   claim6_size_limit.2 plainEnv none ["workspace", "proj"] twoFileTree
      ⟨"a.txt", ".txt", 5, 3, "text", none⟩ (by decide)⟩

/-- C10: every record produced by the scanner has `lines ≥ 1` (the source
computes `content.count('\n') + 1`), so every inventory satisfies
`total_lines ≥ total_files`. -/
theorem claim10_lines_at_least_one (env : ScanEnv) (maxFiles : Option Nat)
    (directoryPath : Path) (tree : FSDir) :
    (analyzeDirectory env maxFiles directoryPath tree).total_files ≤
      (analyzeDirectory env maxFiles directoryPath tree).total_lines ∧
    ∀ fi ∈ (analyzeDirectory env maxFiles directoryPath tree).files,
      1 ≤ fi.lines := by
  obtain ⟨h1, -, h3⟩ :=
    walkDir_inv env maxFiles tree directoryPath [] ⟨[], [], 0, [], 0⟩
      walkInv_init
  constructor
  · have hle := length_le_linesSum
      (walkDir env maxFiles directoryPath [] tree ⟨[], [], 0, [], 0⟩).files
      fun fi hfi => (h3 fi hfi).1
    calc (analyzeDirectory env maxFiles directoryPath tree).total_files
        = (walkDir env maxFiles directoryPath [] tree
            ⟨[], [], 0, [], 0⟩).files.length := rfl
      _ ≤ linesSum (walkDir env maxFiles directoryPath [] tree
            ⟨[], [], 0, [], 0⟩).files := hle
      _ = (analyzeDirectory env maxFiles directoryPath tree).total_lines :=
          h1.symm
  · exact fun fi hfi => (h3 fi hfi).1

/-- Witness for C10 at a concrete walk (two recorded files, five lines). -/
theorem claim10_witness :
    ((analyzeDirectory plainEnv none ["workspace", "proj"]
        twoFileTree).total_files ≤
      (analyzeDirectory plainEnv none ["workspace", "proj"]
        twoFileTree).total_lines) ∧
    1 ≤ (⟨"a.txt", ".txt", 5, 3, "text", none⟩ : FileInfo).lines :=
  ⟨(claim10_lines_at_least_one plainEnv none ["workspace", "proj"]
      twoFileTree).1,
   (claim10_lines_at_least_one plainEnv none ["workspace", "proj"]
      twoFileTree).2 ⟨"a.txt", ".txt", 5, 3, "text", none⟩ (by decide)⟩

/-- C9 (counterexample): the claim says `lineCount` equals the count of
newline-delimited segments of the decoded text, a file with no content
yielding 0 under that definition.  The code computes
`content.count('\n') + 1`, so the empty file is recorded with `lines = 1`,
not 0. -/
theorem claim9_counterexample :
    (analyzeFile failingParsers "empty.txt" "empty.txt" true
        ⟨false, 0, true, ""⟩).map FileInfo.lines = some 1 ∧
    specNewlineSegments "" = 0 :=
  ⟨rfl, rfl⟩

/-- C9 (amended): every record produced by `_analyze_file` has
`lines = content.count('\n') + 1` — the number of newline characters in
the decoded text plus one (so an empty file is recorded with 1, and the
count is never 0). -/
theorem claim9_lines_newline_count_plus_one (ps : CodeParsers)
    (fileName relativePath : String) (includeDocumentation : Bool)
    (fd : FileData) (fi : FileInfo)
    (h : analyzeFile ps fileName relativePath includeDocumentation fd =
      some fi) :
    fi.lines = countNewlines fd.content + 1 :=
  (analyzeFile_some_spec ps fileName relativePath includeDocumentation fd
    fi h).2.2.2

/-- Witness for the amended C9 at a concrete file with two newlines. -/
theorem claim9_witness :
    (⟨"a.txt", ".txt", 5, 3, "text", none⟩ : FileInfo).lines =
      countNewlines "hello\nworld\n" + 1 :=
  claim9_lines_newline_count_plus_one failingParsers "a.txt" "a.txt" false
    ⟨false, 5, true, "hello\nworld\n"⟩ _ (by decide)

theorem processFile_link (env : ScanEnv) (rootAbs relDir : Path)
    (st : WalkState) (fileName : String) (fd : FileData)
    (h : fd.isLink = true) :
    processFile env rootAbs relDir st fileName fd = st := by
  obtain ⟨stFiles, stDirs, stLines, stTechs, stCount⟩ := st
  simp only [processFile]
  split
  · rfl
  · rfl


theorem processFiles_break (env : ScanEnv) (maxFiles : Option Nat)
    (rootAbs relDir : Path) (st : WalkState)
    (h : maxFilesReached maxFiles st.fileCount = true) :
    ∀ l, processFiles env maxFiles rootAbs relDir st l = st
  | [] => rfl
  | (fileName, fd) :: _ => by
    unfold processFiles
    rw [if_pos h]

theorem processFiles_filter_links (env : ScanEnv) (maxFiles : Option Nat)
    (rootAbs relDir : Path) :
    ∀ (l : List (String × FileData)) (st : WalkState),
      processFiles env maxFiles rootAbs relDir st
          (l.filter fun f => !f.2.isLink) =
        processFiles env maxFiles rootAbs relDir st l
  | [], _ => rfl
  | (fileName, fd) :: rest, st => by
    by_cases hl : fd.isLink = true
    · have hfilter : ((fileName, fd) :: rest).filter
          (fun f => !f.2.isLink) = rest.filter fun f => !f.2.isLink := by
        simp [hl]
      rw [hfilter,
        processFiles_filter_links env maxFiles rootAbs relDir rest st]
      conv_rhs => unfold processFiles
      split
      · rename_i hmax
        exact processFiles_break env maxFiles rootAbs relDir st hmax rest
      · rw [processFile_link env rootAbs relDir st fileName fd hl]
    · have hfilter : ((fileName, fd) :: rest).filter
          (fun f => !f.2.isLink) =
          (fileName, fd) :: rest.filter fun f => !f.2.isLink := by
        simp [hl]
      rw [hfilter]
      unfold processFiles
      split
      · rfl
      · exact processFiles_filter_links env maxFiles rootAbs relDir rest _

theorem dirPassesFilter_link (env : ScanEnv) (rootAbs : Path)
    (dirName : String) : dirPassesFilter env rootAbs dirName true = false := by
  simp [dirPassesFilter]

theorem recordDirs_prune (env : ScanEnv) (rootAbs relDir : Path) :
    ∀ (es : DirEntries) (st : WalkState),
      recordDirs env rootAbs relDir st (pruneEntries es) =
        recordDirs env rootAbs relDir st es
  | .nil, _ => rfl
  | .cons dirName isLink sub rest, st => by
    obtain ⟨stFiles, stDirs, stLines, stTechs, stCount⟩ := st
    by_cases hl : isLink = true
    · subst hl
      have hp : pruneEntries (.cons dirName true sub rest) =
          pruneEntries rest := by
        simp [pruneEntries]
      rw [hp, recordDirs_prune env rootAbs relDir rest _]
      conv_rhs => unfold recordDirs
      rw [dirPassesFilter_link env rootAbs dirName]
      simp
    · have hb : isLink = false := by
        cases isLink
        · rfl
        · exact absurd rfl hl
      subst hb
      have hp : pruneEntries (.cons dirName false sub rest) =
          .cons dirName false (pruneLinks sub) (pruneEntries rest) := by
        simp [pruneEntries]
      rw [hp]
      unfold recordDirs
      exact recordDirs_prune env rootAbs relDir rest _

mutual

theorem walkDir_prune (env : ScanEnv) (maxFiles : Option Nat) :
    ∀ (d : FSDir) (rootAbs relDir : Path) (st : WalkState),
      walkDir env maxFiles rootAbs relDir (pruneLinks d) st =
        walkDir env maxFiles rootAbs relDir d st
  | .node subdirs files, rootAbs, relDir, st => by
    obtain ⟨stFiles, stDirs, stLines, stTechs, stCount⟩ := st
    have hp : pruneLinks (.node subdirs files) =
        .node (pruneEntries subdirs)
          (files.filter fun f => !f.2.isLink) := rfl
    rw [hp]
    simp only [walkDir]
    split
    · rfl
    · split
      · rfl
      · rw [recordDirs_prune env rootAbs relDir subdirs,
          processFiles_filter_links env maxFiles rootAbs relDir files,
          walkEntries_prune env maxFiles subdirs rootAbs relDir _]

theorem walkEntries_prune (env : ScanEnv) (maxFiles : Option Nat) :
    ∀ (es : DirEntries) (rootAbs relDir : Path) (st : WalkState),
      walkEntries env maxFiles rootAbs relDir (pruneEntries es) st =
        walkEntries env maxFiles rootAbs relDir es st
  | .nil, _, _, _ => rfl
  | .cons dirName isLink sub rest, rootAbs, relDir, st => by
    by_cases hl : isLink = true
    · subst hl
      have hp : pruneEntries (.cons dirName true sub rest) =
          pruneEntries rest := by
        simp [pruneEntries]
      rw [hp, walkEntries_prune env maxFiles rest rootAbs relDir st]
      conv_rhs => unfold walkEntries
      rw [dirPassesFilter_link env rootAbs dirName]
      simp
    · have hb : isLink = false := by
        cases isLink
        · rfl
        · exact absurd rfl hl
      subst hb
      have hp : pruneEntries (.cons dirName false sub rest) =
          .cons dirName false (pruneLinks sub) (pruneEntries rest) := by
        simp [pruneEntries]
      rw [hp]
      unfold walkEntries
      rw [walkDir_prune env maxFiles sub (rootAbs ++ [dirName])
        (relDir ++ [dirName]) st]
      exact walkEntries_prune env maxFiles rest rootAbs relDir _

end

/-- C5: symbolic links are treated as absent by the walk — walking a tree
gives exactly the same inventory as walking the tree with every
symbolic-link file and symbolic-link directory (with its whole subtree)
removed.  In particular no symlink is ever recorded in `files` or
`directories` and no symlinked directory is traversed. -/
theorem claim5_symlinks_treated_as_absent (env : ScanEnv)
    (maxFiles : Option Nat) (directoryPath : Path) (tree : FSDir) :
    analyzeDirectory env maxFiles directoryPath (pruneLinks tree) =
      analyzeDirectory env maxFiles directoryPath tree := by
  unfold analyzeDirectory
  rw [walkDir_prune env maxFiles tree directoryPath []]

theorem parseCodeStructure_error (ps : CodeParsers) (content : String)
    (language : String) (msgP msgJ : String)
    (hpy : ps.pyParse content = Except.error msgP)
    (hjs : ps.jsParse content = Except.error msgJ)
    (h : language = "python" ∨ language = "javascript") :
    parseCodeStructure ps content language = none := by
  rcases h with h | h <;> subst h <;>
    simp [parseCodeStructure, hpy, hjs, Except.map]

/-- C8: a file classified as `python` or `javascript` whose content makes
the parser raise still yields a file record — with `documentation` (the
structural summary) absent — rather than being dropped: the parse failure
is caught inside `_parse_code_structure` and turned into "no summary". -/
theorem claim8_parse_failure_keeps_record (ps : CodeParsers)
    (fileName relativePath : String) (fd : FileData) (msgP msgJ : String)
    (hbin : binaryExtensions.contains (strLower (pathSuffix fileName)) =
      false)
    (hsize : fd.size ≤ 1024 * 1024)
    (hread : fd.readable = true)
    (hlang : lookupLanguage (strLower (pathSuffix fileName)) = "python" ∨
      lookupLanguage (strLower (pathSuffix fileName)) = "javascript")
    (hpy : ps.pyParse fd.content = Except.error msgP)
    (hjs : ps.jsParse fd.content = Except.error msgJ) :
    analyzeFile ps fileName relativePath true fd =
      some { path := relativePath,
             type := strLower (pathSuffix fileName),
             size := fd.size,
             lines := countNewlines fd.content + 1,
             language := lookupLanguage (strLower (pathSuffix fileName)),
             documentation := none } := by
  have hpc := parseCodeStructure_error ps fd.content _ msgP msgJ hpy hjs
    hlang
  rcases hlang with hl | hl <;>
  · rw [hl] at hpc
    unfold analyzeFile
    simp only []
    rw [hl, hbin]
    simp [Nat.not_lt.mpr hsize, hread, hpc]

/-- Witness for C8: a malformed Python file of 10 bytes is still recorded,
with no structural summary. -/
theorem claim8_witness :
    analyzeFile failingParsers "bad.py" "bad.py" true
      ⟨false, 10, true, "def ("⟩ =
      some ⟨"bad.py", ".py", 10, 1, "python", none⟩ :=
  claim8_parse_failure_keeps_record failingParsers "bad.py" "bad.py"
    ⟨false, 10, true, "def ("⟩ "parse error" "parse error"
    (by decide) (by decide) rfl (Or.inl (by decide)) rfl rfl

theorem processFileDelta_length_le (env : ScanEnv) (rootAbs relDir : Path)
    (fileName : String) (fd : FileData) :
    (processFileDelta env rootAbs relDir fileName fd).length ≤ 1 := by
  unfold processFileDelta
  split
  · simp
  · split
    · simp
    · split
      · simp
      · split
        · simp
        · simp

theorem processFiles_mono (env : ScanEnv) (maxFiles : Option Nat)
    (rootAbs relDir : Path) :
    ∀ (l : List (String × FileData)) (st : WalkState),
      ∃ ext, (processFiles env maxFiles rootAbs relDir st l).files =
        st.files ++ ext
  | [], st => ⟨[], by simp [processFiles]⟩
  | (fileName, fd) :: rest, st => by
    unfold processFiles
    split
    · exact ⟨[], by simp⟩
    · obtain ⟨e, he⟩ := processFiles_mono env maxFiles rootAbs relDir rest
        (processFile env rootAbs relDir st fileName fd)
      obtain ⟨hf, -, -⟩ := processFile_fields env rootAbs relDir st fileName fd
      exact ⟨processFileDelta env rootAbs relDir fileName fd ++ e,
        by rw [he, hf, List.append_assoc]⟩

theorem walkDir_break (env : ScanEnv) (maxFiles : Option Nat)
    (rootAbs relDir : Path) (d : FSDir) (st : WalkState)
    (h : maxFilesReached maxFiles st.fileCount = true) :
    walkDir env maxFiles rootAbs relDir d st = st := by
  cases d with
  | node subdirs files =>
    obtain ⟨stFiles, stDirs, stLines, stTechs, stCount⟩ := st
    simp only [walkDir]
    rw [if_pos h]

mutual

theorem walkDir_mono (env : ScanEnv) (maxFiles : Option Nat) :
    ∀ (d : FSDir) (rootAbs relDir : Path) (st : WalkState),
      ∃ ext, (walkDir env maxFiles rootAbs relDir d st).files =
        st.files ++ ext
  | .node subdirs files, rootAbs, relDir, st => by
    obtain ⟨stFiles, stDirs, stLines, stTechs, stCount⟩ := st
    simp only [walkDir]
    split
    · exact ⟨[], by simp⟩
    · split
      · exact ⟨[], by simp⟩
      · obtain ⟨hrf, -, -⟩ := recordDirs_fields env rootAbs relDir subdirs _
        obtain ⟨e1, he1⟩ :=
          processFiles_mono env maxFiles rootAbs relDir files _
        obtain ⟨e2, he2⟩ :=
          walkEntries_mono env maxFiles subdirs rootAbs relDir _
        exact ⟨e1 ++ e2, by rw [he2, he1, hrf, List.append_assoc]⟩

theorem walkEntries_mono (env : ScanEnv) (maxFiles : Option Nat) :
    ∀ (es : DirEntries) (rootAbs relDir : Path) (st : WalkState),
      ∃ ext, (walkEntries env maxFiles rootAbs relDir es st).files =
        st.files ++ ext
  | .nil, _, _, st => ⟨[], by simp [walkEntries]⟩
  | .cons dirName isLink sub rest, rootAbs, relDir, st => by
    simp only [walkEntries]
    split
    · obtain ⟨e1, he1⟩ := walkDir_mono env maxFiles sub (rootAbs ++ [dirName])
        (relDir ++ [dirName]) st
      obtain ⟨e2, he2⟩ := walkEntries_mono env maxFiles rest rootAbs relDir _
      exact ⟨e1 ++ e2, by rw [he2, he1, List.append_assoc]⟩
    · exact walkEntries_mono env maxFiles rest rootAbs relDir st

end

theorem walkDir_eq (env : ScanEnv) (maxFiles : Option Nat)
    (rootAbs relDir : Path) (subdirs : DirEntries)
    (files : List (String × FileData)) (st : WalkState) :
    walkDir env maxFiles rootAbs relDir (.node subdirs files) st =
      if maxFilesReached maxFiles st.fileCount then st
      else if !(validateOk env rootAbs) then st
      else walkEntries env maxFiles rootAbs relDir subdirs
        (processFiles env maxFiles rootAbs relDir
          (recordDirs env rootAbs relDir st subdirs) files) := by
  obtain ⟨stFiles, stDirs, stLines, stTechs, stCount⟩ := st
  simp only [walkDir]

theorem simR_saturated (n : Nat) (stL stU : WalkState) (h : simR n stL stU)
    (hmax : maxFilesReached (some n) stL.fileCount = true) :
    n ≤ stU.files.length := by
  obtain ⟨htake, hIL, hIU⟩ := h
  have hc : n ≤ stL.fileCount := by
    simp [maxFilesReached] at hmax
    exact hmax.2
  rw [hIL.2.1, htake, List.length_take] at hc
  omega

theorem processFiles_sim (env : ScanEnv) (n : Nat) (hn : 1 ≤ n)
    (rootAbs relDir : Path) :
    ∀ (l : List (String × FileData)) (stL stU : WalkState),
      simR n stL stU →
      simR n (processFiles env (some n) rootAbs relDir stL l)
        (processFiles env none rootAbs relDir stU l)
  | [], _, _, h => h
  | (fileName, fd) :: rest, stL, stU, h => by
    by_cases hmax : maxFilesReached (some n) stL.fileCount = true
    · rw [processFiles_break env (some n) rootAbs relDir stL hmax]
      have hcount := simR_saturated n stL stU h hmax
      obtain ⟨ext, hext⟩ := processFiles_mono env none rootAbs relDir
        ((fileName, fd) :: rest) stU
      exact ⟨by rw [hext, List.take_append_of_le_length hcount]; exact h.1,
        h.2.1, processFiles_inv env none rootAbs relDir _ stU h.2.2⟩
    · obtain ⟨htake, hIL, hIU⟩ := h
      have hlt : stL.fileCount < n := by
        by_contra hge
        exact hmax (by simp [maxFilesReached]; omega)
      have hUlen : stU.files.length < n := by
        have hc := hIL.2.1
        rw [htake, List.length_take] at hc
        omega
      have hfiles : stL.files = stU.files := by
        rw [htake, List.take_of_length_le (by omega)]
      unfold processFiles
      rw [if_neg hmax, if_neg (by simp [maxFilesReached])]
      obtain ⟨hfL, -, -⟩ := processFile_fields env rootAbs relDir stL
        fileName fd
      obtain ⟨hfU, -, -⟩ := processFile_fields env rootAbs relDir stU
        fileName fd
      have hdl := processFileDelta_length_le env rootAbs relDir fileName fd
      refine processFiles_sim env n hn rootAbs relDir rest _ _
        ⟨?_, processFile_inv env rootAbs relDir stL fileName fd hIL,
         processFile_inv env rootAbs relDir stU fileName fd hIU⟩
      rw [hfL, hfU, hfiles, List.take_of_length_le (by
        rw [List.length_append]
        omega)]

theorem recordDirs_sim (env : ScanEnv) (n : Nat) (rootAbs relDir : Path)
    (es : DirEntries) (stL stU : WalkState) (h : simR n stL stU) :
    simR n (recordDirs env rootAbs relDir stL es)
      (recordDirs env rootAbs relDir stU es) := by
  obtain ⟨hfL, -, -⟩ := recordDirs_fields env rootAbs relDir es stL
  obtain ⟨hfU, -, -⟩ := recordDirs_fields env rootAbs relDir es stU
  exact ⟨by rw [hfL, hfU]; exact h.1,
    recordDirs_inv env rootAbs relDir es stL h.2.1,
    recordDirs_inv env rootAbs relDir es stU h.2.2⟩

mutual

theorem walkDir_sim (env : ScanEnv) (n : Nat) (hn : 1 ≤ n) :
    ∀ (d : FSDir) (rootAbs relDir : Path) (stL stU : WalkState),
      simR n stL stU →
      simR n (walkDir env (some n) rootAbs relDir d stL)
        (walkDir env none rootAbs relDir d stU)
  | .node subdirs files, rootAbs, relDir, stL, stU, h => by
    by_cases hmax : maxFilesReached (some n) stL.fileCount = true
    · rw [walkDir_break env (some n) rootAbs relDir (.node subdirs files)
        stL hmax]
      have hcount := simR_saturated n stL stU h hmax
      obtain ⟨ext, hext⟩ := walkDir_mono env none (.node subdirs files)
        rootAbs relDir stU
      exact ⟨by rw [hext, List.take_append_of_le_length hcount]; exact h.1,
        h.2.1,
        walkDir_inv env none (.node subdirs files) rootAbs relDir stU h.2.2⟩
    · rw [walkDir_eq, walkDir_eq, if_neg hmax,
        if_neg (show ¬maxFilesReached none stU.fileCount = true from
          Bool.false_ne_true)]
      by_cases hv : (!validateOk env rootAbs) = true
      · rw [if_pos hv, if_pos hv]
        exact h
      · rw [if_neg hv, if_neg hv]
        exact walkEntries_sim env n hn subdirs rootAbs relDir _ _
          (processFiles_sim env n hn rootAbs relDir files _ _
            (recordDirs_sim env n rootAbs relDir subdirs _ _ h))

theorem walkEntries_sim (env : ScanEnv) (n : Nat) (hn : 1 ≤ n) :
    ∀ (es : DirEntries) (rootAbs relDir : Path) (stL stU : WalkState),
      simR n stL stU →
      simR n (walkEntries env (some n) rootAbs relDir es stL)
        (walkEntries env none rootAbs relDir es stU)
  | .nil, _, _, _, _, h => h
  | .cons dirName isLink sub rest, rootAbs, relDir, stL, stU, h => by
    simp only [walkEntries]
    by_cases hp : dirPassesFilter env rootAbs dirName isLink = true
    · rw [if_pos hp, if_pos hp]
      exact walkEntries_sim env n hn rest rootAbs relDir _ _
        (walkDir_sim env n hn sub (rootAbs ++ [dirName])
          (relDir ++ [dirName]) _ _ h)
    · rw [if_neg hp, if_neg hp]
      exact walkEntries_sim env n hn rest rootAbs relDir _ _ h

end

/-- C4 (amended): for every positive ceiling `n`, walking with
`maxFiles = n` records exactly `min n E` files, where `E` is the number of
files the unbounded walk of the same tree records (the eligible files): a
tree with more than `n` eligible files yields exactly `n`, a tree with
fewer yields all of them, and reaching the ceiling just stops the scan —
it is not an error (the walk still returns an inventory).  (`maxFiles = 0`
or `None` is falsy in the guard `request.max_files and file_count >=
request.max_files` and disables the ceiling, which is why the claim as
stated fails at `N = 0`.) -/
theorem claim4_max_files_ceiling (env : ScanEnv) (n : Nat) (hn : 1 ≤ n)
    (directoryPath : Path) (tree : FSDir) :
    (analyzeDirectory env (some n) directoryPath tree).total_files =
      min n (analyzeDirectory env none directoryPath tree).total_files := by
  obtain ⟨htake, -, -⟩ := walkDir_sim env n hn tree directoryPath []
    ⟨[], [], 0, [], 0⟩ ⟨[], [], 0, [], 0⟩
    ⟨by simp, walkInv_init, walkInv_init⟩
  show (walkDir env (some n) directoryPath [] tree
      ⟨[], [], 0, [], 0⟩).files.length =
    min n (walkDir env none directoryPath [] tree
      ⟨[], [], 0, [], 0⟩).files.length
  rw [htake, List.length_take]

/-- C4 (counterexample): with `maxFiles = 0` — a legitimate value of the
request's `max_files` field — the guard `request.max_files and ...` is
falsy, so the ceiling is disabled: a tree with more than 0 eligible files
yields an inventory with `total_files = 1`, not `total_files = 0` as the
claim ("exactly totalFiles == N") requires. -/
theorem claim4_counterexample_zero :
    0 < (analyzeDirectory plainEnv none ["workspace", "proj"]
        oneFileTree).total_files ∧
    (analyzeDirectory plainEnv (some 0) ["workspace", "proj"]
        oneFileTree).total_files ≠ 0 := by
  decide

/-- Witness for the amended C4: ceiling 1 on a two-file tree records
exactly `min 1 2 = 1` file. -/
theorem claim4_witness :
    (analyzeDirectory plainEnv (some 1) ["workspace", "proj"]
        twoFileTree).total_files =
      min 1 (analyzeDirectory plainEnv none ["workspace", "proj"]
        twoFileTree).total_files :=
  claim4_max_files_ceiling plainEnv 1 (by decide) ["workspace", "proj"]
    twoFileTree

end CoDoc
